import Mathlib

/-!
Verification of the enrichment-and-aggregation routine shared by the two
dashboard scripts `0003.py` and `kurly_dash_2.py`.

The scripts operate on a pandas DataFrame with the Korean-named columns
월 (period label), 매출액 (revenue), 전년동월 (prior-year revenue),
증감률 (year-over-year change percent) and the derived columns
_date (parsed period) and 분기 (quarter).  Lean identifiers cannot be
written in Hangul, so the embedding romanizes the column names:

  월 → wol, 매출액 → maechul, 전년동월 → jeonnyeon,
  증감률 → jeunggam, 분기 → bungi, _date → dateCol.

Numeric cell values are modelled as rationals (pandas float64 arithmetic
idealized as exact arithmetic; the claims under study are about which
formula is computed, not about rounding), and missing values (NaN) as
`none`.
-/

/-- A raw CSV cell as seen by `pd.to_numeric(..., errors="coerce")`:
a numeric value, a non-numeric string, or an empty/NaN cell. -/
inductive RawCell where
  | num (q : ℚ)
  | invalid (s : String)
  | empty
deriving Repr, DecidableEq, Inhabited

/-- `pd.to_numeric(x, errors="coerce")` on one cell: numeric values pass
through, anything unparseable (and anything missing) becomes NaN (`none`). -/
def toNumeric : RawCell → Option ℚ
  | .num q => some q
  | .invalid _ => none
  | .empty => none

/-- One raw input row, with the three mandatory columns and the optional
증감률 cell (meaningful only when the table's `hasJeunggam` flag is set). -/
structure RawRow where
  wol : String
  maechul : RawCell
  jeonnyeon : RawCell
  jeunggam : RawCell
deriving Repr, DecidableEq, Inhabited

/-- A raw input table.  The four `has*` flags record which columns are
present in the uploaded CSV; `enrich_df` reads 월, 매출액 and 전년동월
unconditionally and tests `"증감률" in df.columns` before reading it. -/
structure RawTable where
  hasWol : Bool
  hasMaechul : Bool
  hasJeonnyeon : Bool
  hasJeunggam : Bool
  rows : List RawRow
deriving Repr, DecidableEq, Inhabited

/-- Whitespace as stripped by `str.strip()`. -/
def isWS (c : Char) : Bool := c = ' ' || c = '\t' || c = '\n' || c = '\r'

/-- Strip leading and trailing whitespace from a character list. -/
def trimChars (l : List Char) : List Char :=
  ((l.dropWhile isWS).reverse.dropWhile isWS).reverse

/-- `df["월"].astype(str).str.strip()` on one label. -/
def stripStr (s : String) : String := String.mk (trimChars s.data)

/-- Split a character list at every '-', keeping empty groups. -/
def splitDash (l : List Char) : List (List Char) :=
  match l with
  | [] => [[]]
  | c :: rest =>
    let r := splitDash rest
    if c = '-' then [] :: r
    else
      match r with
      | [] => [[c]]
      | g :: gs => (c :: g) :: gs

/-- Numeric value of a digit string. -/
def digitsVal (l : List Char) : Nat :=
  l.foldl (fun acc c => acc * 10 + (c.toNat - 48)) 0

/-- `pd.to_datetime(s, format="%Y-%m", errors="coerce")`: the label must be
`<year>-<month>` with a 1–4 digit year and a 1–2 digit month in 1..12;
anything else coerces to NaT (`none`).  A parsed date is represented as the
pair (year, month). -/
def parseYM (s : String) : Option (Nat × Nat) :=
  match splitDash s.data with
  | [y, m] =>
    if y.length ≥ 1 && y.length ≤ 4 && y.all Char.isDigit
        && m.length ≥ 1 && m.length ≤ 2 && m.all Char.isDigit then
      let mn := digitsVal m
      if 1 ≤ mn ∧ mn ≤ 12 then some (digitsVal y, mn) else none
    else none
  | _ => none

/-- Intermediate row after the 월-strip and `_date` steps, before numeric
coercion (the sort happens at this stage and reads only `dateCol`). -/
structure MidRow where
  wol : String
  dateCol : Option (Nat × Nat)
  maechul : RawCell
  jeonnyeon : RawCell
  jeunggam : RawCell
deriving Repr, DecidableEq, Inhabited

/-- Lines 102–103: strip the period label and attach the parsed date. -/
def toMid (r : RawRow) : MidRow :=
  let w := stripStr r.wol
  { wol := w, dateCol := parseYM w,
    maechul := r.maechul, jeonnyeon := r.jeonnyeon, jeunggam := r.jeunggam }

/-- The `sort_values("_date")` comparator: ascending on parsed dates
(lexicographic on (year, month), which is the datetime order), with
NaT placed last (`na_position="last"`). -/
def keyLE : Option (Nat × Nat) → Option (Nat × Nat) → Bool
  | none, none => true
  | none, some _ => false
  | some _, none => true
  | some p, some q =>
      decide (p.1 < q.1) || (decide (p.1 = q.1) && decide (p.2 ≤ q.2))

/-- Row comparator used by the sort step. -/
def dateLE (a b : MidRow) : Bool := keyLE a.dateCol b.dateCol

/-- The sort comparator as a decidable relation, for `List.insertionSort`. -/
def dateLEP (a b : MidRow) : Prop := dateLE a b = true

instance : DecidableRel dateLEP :=
  fun a b => inferInstanceAs (Decidable (dateLE a b = true))

/-- A fully enriched row as returned by `enrich_df`: coerced numerics,
a backfilled 증감률 (never null after `fillna(0)`), and the derived
분기 column (null exactly when `_date` is NaT). -/
structure Row where
  wol : String
  dateCol : Option (Nat × Nat)
  maechul : Option ℚ
  jeonnyeon : Option ℚ
  jeunggam : ℚ
  bungi : Option Nat
deriving Repr, DecidableEq, Inhabited

/-- NaN-propagating subtraction on pandas values. -/
def subO : Option ℚ → Option ℚ → Option ℚ
  | some a, some b => some (a - b)
  | _, _ => none

/-- NaN-propagating division.  Division by an exact zero is abstracted as
`none`; in the scripts this case is never assigned to the output (the
`.ne(0)` mask excludes it), so the abstraction is unobservable. -/
def divO : Option ℚ → Option ℚ → Option ℚ
  | some a, some b => if b = 0 then none else some (a / b)
  | _, _ => none

/-- NaN-propagating multiplication. -/
def mulO : Option ℚ → Option ℚ → Option ℚ
  | some a, some b => some (a * b)
  | _, _ => none

/-- The backfill formula `(매출액 - 전년동월) / 전년동월 * 100`
in NaN-propagating arithmetic. -/
def yoyFormula (rev prior : Option ℚ) : Option ℚ :=
  mulO (divO (subO rev prior) prior) (some 100)

/-- `series.ne(0)` on one cell: pandas compares NaN != 0 as True. -/
def neZero : Option ℚ → Bool
  | none => true
  | some q => decide (q ≠ 0)

/-- 0003.py lines 111–115: on rows where 증감률 is NaN and 전년동월 != 0,
assign the formula; other rows keep their value. -/
def rate0003 (rev prior rate : Option ℚ) : Option ℚ :=
  if rate.isNone && neZero prior then yoyFormula rev prior else rate

/-- kurly_dash_2.py lines 125–128: the assigned series is computed over the
`missing_mask` rows only and aligned by index onto the
`missing_mask & ne(0)` target rows; a target row absent from the
right-hand side would receive NaN (unreachable, since the target mask is a
subset of `missing_mask`). -/
def rateKurly (rev prior rate : Option ℚ) : Option ℚ :=
  if rate.isNone && neZero prior then
    if rate.isNone then yoyFormula rev prior else none
  else rate

/-- Lines 105–117 applied to one sorted row: coerce 매출액 and 전년동월,
coerce 증감률 (or create it as NaN when the column is absent), run the
version-specific backfill step, `fillna(0)`, and derive 분기 from `_date`
(`dt.quarter` is `(month - 1) // 3 + 1`, and NaN on NaT). -/
def finishRow (rateStep : Option ℚ → Option ℚ → Option ℚ → Option ℚ)
    (hasJG : Bool) (m : MidRow) : Row :=
  let rev := toNumeric m.maechul
  let prior := toNumeric m.jeonnyeon
  let rate0 : Option ℚ := if hasJG then toNumeric m.jeunggam else none
  let rate1 := rateStep rev prior rate0
  { wol := m.wol, dateCol := m.dateCol, maechul := rev, jeonnyeon := prior,
    jeunggam := rate1.getD 0,
    bungi := m.dateCol.map (fun p => (p.2 - 1) / 3 + 1) }

/-- `enrich_df` of 0003.py (lines 100–118): strip and parse the period
labels, sort ascending by parsed date (NaT last), then coerce and derive
the remaining columns row by row.  `sort_values("_date")` is modelled as a
stable sort; no property proved below depends on the relative order of
rows with equal (or both-missing) date keys. -/
def enrich0003 (t : RawTable) : List Row :=
  (List.insertionSort dateLEP (t.rows.map toMid)).map
    (finishRow rate0003 t.hasJeunggam)

/-- `enrich_df` of kurly_dash_2.py (lines 110–132): identical pipeline with
its own formulation of the backfill assignment. -/
def enrichKurly (t : RawTable) : List Row :=
  (List.insertionSort dateLEP (t.rows.map toMid)).map
    (finishRow rateKurly t.hasJeunggam)

/-- `enrich_df` of 0003.py with its failure behaviour made explicit: the
column accesses on lines 102, 105 and 106 raise `KeyError` when the column
is absent; every later step uses `errors="coerce"` / mask assignment and
cannot raise. -/
def enrich0003E (t : RawTable) : Except String (List Row) :=
  if t.hasWol = false then .error "KeyError: wol"
  else if t.hasMaechul = false then .error "KeyError: maechul"
  else if t.hasJeonnyeon = false then .error "KeyError: jeonnyeon"
  else .ok (enrich0003 t)

/-- `enrich_df` of kurly_dash_2.py with its failure behaviour made
explicit (same column accesses, lines 113, 118 and 119). -/
def enrichKurlyE (t : RawTable) : Except String (List Row) :=
  if t.hasWol = false then .error "KeyError: wol"
  else if t.hasMaechul = false then .error "KeyError: maechul"
  else if t.hasJeonnyeon = false then .error "KeyError: jeonnyeon"
  else .ok (enrichKurly t)

/-- The 매출액 column of an enriched table (`vals = df["매출액"]`). -/
def vals (df : List Row) : List (Option ℚ) := df.map (fun r => r.maechul)

/-- `vals.notna().any()`. -/
def notnaAny (l : List (Option ℚ)) : Bool := l.any (fun v => v.isSome)

/-- First-occurrence extremum of a nullable series: NaNs are skipped and the
incumbent is replaced only when the candidate is strictly `better`, so ties
keep the earliest position, matching pandas `idxmax` / `idxmin`.  Returns
the position together with the extremal value. -/
def bestPair (better : ℚ → ℚ → Bool) : List (Option ℚ) → Option (Nat × ℚ)
  | [] => none
  | none :: rest => (bestPair better rest).map (fun p => (p.1 + 1, p.2))
  | some x :: rest =>
    match bestPair better rest with
    | none => some (0, x)
    | some (j, y) => if better y x then some (j + 1, y) else some (0, x)

/-- `series.idxmax()` (first position of the maximum, NaNs skipped);
`none` when every value is NaN. -/
def idxmax (l : List (Option ℚ)) : Option Nat :=
  (bestPair (fun y x => decide (x < y)) l).map (fun p => p.1)

/-- `series.idxmin()` (first position of the minimum, NaNs skipped). -/
def idxmin (l : List (Option ℚ)) : Option Nat :=
  (bestPair (fun y x => decide (y < x)) l).map (fun p => p.1)

/-- 0003.py line 148: `vals.idxmax() if vals.notna().any() else None`. -/
def maxIdx0003 (df : List Row) : Option Nat :=
  if notnaAny (vals df) then idxmax (vals df) else none

/-- 0003.py line 149: `vals.idxmin() if vals.notna().any() else None`. -/
def minIdx0003 (df : List Row) : Option Nat :=
  if notnaAny (vals df) then idxmin (vals df) else none

/-- 0003.py lines 151–154: the 최고-매출 metric shows the selected row's
period label, or the literal dash when no index was computed. -/
def maxMetricText0003 (df : List Row) : String :=
  match maxIdx0003 df with
  | some i => (df.getD i default).wol
  | none => "-"

/-- 0003.py lines 156–159: the 최저-매출 metric, dash when no index. -/
def minMetricText0003 (df : List Row) : String :=
  match minIdx0003 df with
  | some i => (df.getD i default).wol
  | none => "-"

/-- kurly_dash_2.py line 166: unguarded `df["매출액"].idxmax()`; on an
all-NaN column pandas raises `ValueError`. -/
def maxIdxKurly (df : List Row) : Except String Nat :=
  match idxmax (vals df) with
  | some i => .ok i
  | none => .error "attempt to get argmax of an empty sequence"

/-- kurly_dash_2.py line 169: unguarded `df["매출액"].idxmin()`. -/
def minIdxKurly (df : List Row) : Except String Nat :=
  match idxmin (vals df) with
  | some i => .ok i
  | none => .error "attempt to get argmin of an empty sequence"

/-- Placeholder dereference result for the heap model below. -/
def emptyRawTable : RawTable := ⟨false, false, false, false, []⟩

/-- A small heap model of the call `enrich_df(df_raw)`: the heap holds the
caller-visible DataFrame objects, `r` is the argument reference.  Line 101
(`df = df.copy()`) allocates a fresh object at the end of the heap and every
subsequent statement of the function body reads and mutates only that fresh
object, whose final value is returned. -/
def enrichCall (heap : List RawTable) (r : Nat) : List RawTable × List Row :=
  let df := heap.getD r emptyRawTable
  let heap2 := heap ++ [df]
  (heap2, enrich0003 (heap2.getD heap.length emptyRawTable))

/-- A one-row table whose period label parses; 매출액 does not parse,
전년동월 parses to 5 ≠ 0, 증감률 is empty. -/
def tNullRev : RawTable :=
  ⟨true, true, true, true, [⟨"2024-01", .invalid "abc", .num 5, .empty⟩]⟩

/-- A one-row table whose only period label is unparseable (증감률 is
supplied so the row is otherwise fully formed). -/
def tFoo : RawTable :=
  ⟨true, true, true, true, [⟨"foo", .num 1, .num 2, .num 5⟩]⟩

/-- A table with two identical rows, hence a duplicated period label. -/
def tDup : RawTable :=
  ⟨true, true, true, true,
    [⟨"2024-01", .num 12, .num 10, .num 14⟩,
     ⟨"2024-01", .num 12, .num 10, .num 14⟩]⟩

/-- A two-row well-formed table, deliberately out of order. -/
def tW : RawTable :=
  ⟨true, true, true, true,
    [⟨"2024-02", .num 13, .num 11, .num 20⟩,
     ⟨"2024-01", .num 12, .num 10, .num 14⟩]⟩

/-- A one-row table whose 매출액 cell is unparseable (all-NaN revenue
column after coercion). -/
def tAllNullRev : RawTable :=
  ⟨true, true, true, true, [⟨"2024-01", .invalid "n/a", .num 10, .num 14⟩]⟩

/-! ### Helper lemmas -/

lemma keyLE_trans (a b c : Option (Nat × Nat)) (hab : keyLE a b = true)
    (hbc : keyLE b c = true) : keyLE a c = true := by
  rcases a with _ | ⟨a1, a2⟩ <;> rcases b with _ | ⟨b1, b2⟩ <;>
      rcases c with _ | ⟨c1, c2⟩
  · rfl
  · exact hbc
  · rfl
  · exact Bool.noConfusion hab
  · rfl
  · exact Bool.noConfusion hbc
  · rfl
  · simp only [keyLE, Bool.or_eq_true, Bool.and_eq_true,
      decide_eq_true_eq] at hab hbc ⊢
    omega

lemma keyLE_total (a b : Option (Nat × Nat)) :
    keyLE a b = true ∨ keyLE b a = true := by
  rcases a with _ | ⟨a1, a2⟩ <;> rcases b with _ | ⟨b1, b2⟩
  · left; rfl
  · right; rfl
  · left; rfl
  · simp only [keyLE, Bool.or_eq_true, Bool.and_eq_true, decide_eq_true_eq]
    omega

instance : IsTrans MidRow dateLEP :=
  ⟨fun _ _ _ hab hbc => keyLE_trans _ _ _ hab hbc⟩

instance : IsTotal MidRow dateLEP :=
  ⟨fun a b => keyLE_total a.dateCol b.dateCol⟩

/-- The two backfill formulations agree on every row: the kurly variant's
index alignment always finds the row (the assignment mask is a subset of the
mask the right-hand side ranges over). -/
lemma rate0003_eq_rateKurly (rev prior rate : Option ℚ) :
    rate0003 rev prior rate = rateKurly rev prior rate := by
  cases rate <;> simp [rate0003, rateKurly]

/-- The rows produced by `enrich_df` are a permutation of the per-row
transform of the input rows. -/
lemma enrich0003_perm (t : RawTable) :
    (enrich0003 t).Perm
      (t.rows.map (fun r => finishRow rate0003 t.hasJeunggam (toMid r))) := by
  unfold enrich0003
  have h := (List.perm_insertionSort dateLEP (t.rows.map toMid)).map
    (finishRow rate0003 t.hasJeunggam)
  simpa [List.map_map, Function.comp] using h

lemma finishRow_wol (f : Option ℚ → Option ℚ → Option ℚ → Option ℚ)
    (h : Bool) (m : MidRow) : (finishRow f h m).wol = m.wol := rfl

lemma finishRow_dateCol (f : Option ℚ → Option ℚ → Option ℚ → Option ℚ)
    (h : Bool) (m : MidRow) : (finishRow f h m).dateCol = m.dateCol := rfl

lemma finishRow_bungi (f : Option ℚ → Option ℚ → Option ℚ → Option ℚ)
    (h : Bool) (m : MidRow) :
    (finishRow f h m).bungi = m.dateCol.map (fun p => (p.2 - 1) / 3 + 1) := rfl

/-- Every row of the enriched table is the image of some input row, and its
label, date key and quarter are related as the pipeline computes them. -/
lemma enrich0003_row_shape (t : RawTable) (r : Row) (hr : r ∈ enrich0003 t) :
    ∃ r₀ ∈ t.rows, r = finishRow rate0003 t.hasJeunggam (toMid r₀) := by
  have hmem := (enrich0003_perm t).mem_iff.mp hr
  rcases List.mem_map.mp hmem with ⟨r₀, hr₀, hEq⟩
  exact ⟨r₀, hr₀, hEq.symm⟩

/-- Rows of the output carry `dateCol = parseYM wol` (the label stored in
the output is the stripped one, and the date key was parsed from it). -/
lemma enrich0003_dateCol_eq (t : RawTable) (r : Row) (hr : r ∈ enrich0003 t) :
    r.dateCol = parseYM r.wol ∧
      r.bungi = r.dateCol.map (fun p => (p.2 - 1) / 3 + 1) := by
  rcases enrich0003_row_shape t r hr with ⟨r₀, _, rfl⟩
  refine ⟨?_, rfl⟩
  simp [finishRow, toMid]

/-- A month accepted by `parseYM` lies in 1..12. -/
lemma parseYM_month_bounds (s : String) (y m : Nat)
    (h : parseYM s = some (y, m)) : 1 ≤ m ∧ m ≤ 12 := by
  unfold parseYM at h
  rcases hs : splitDash s.data with _ | ⟨a, _ | ⟨b, _ | _⟩⟩ <;> rw [hs] at h <;>
    simp only [] at h
  · exact absurd h (by simp)
  · exact absurd h (by simp)
  · split at h
    · split at h
      · rcases Option.some.inj h with hEq
        have : m = digitsVal b := (Prod.mk.injEq _ _ _ _ ▸ hEq).2.symm
        omega
      · exact absurd h (by simp)
    · exact absurd h (by simp)
  · exact absurd h (by simp)

section BestPairLemmas

variable {better : ℚ → ℚ → Bool}

lemma bestPair_eq_none (l : List (Option ℚ)) :
    bestPair better l = none ↔ ∀ v ∈ l, v = none := by
  induction l with
  | nil => simp [bestPair]
  | cons v rest ih =>
    cases v with
    | none => simp [bestPair, Option.map_eq_none', ih]
    | some x =>
      cases hb : bestPair better rest with
      | none => simp [bestPair, hb]
      | some p =>
        rcases p with ⟨j, y⟩
        cases hby : better y x <;> simp [bestPair, hb, hby]

lemma bestPair_cons_none (rest : List (Option ℚ)) :
    bestPair better (none :: rest)
      = (bestPair better rest).map (fun p => (p.1 + 1, p.2)) := rfl

lemma bestPair_cons_some_none (x : ℚ) (rest : List (Option ℚ))
    (hb : bestPair better rest = none) :
    bestPair better (some x :: rest) = some (0, x) := by
  unfold bestPair
  rw [hb]

lemma bestPair_cons_some_some (x : ℚ) (rest : List (Option ℚ)) (j : Nat)
    (y : ℚ) (hb : bestPair better rest = some (j, y)) :
    bestPair better (some x :: rest)
      = if better y x then some (j + 1, y) else some (0, x) := by
  unfold bestPair
  rw [hb]

lemma bestPair_get (l : List (Option ℚ)) (i : Nat) (x : ℚ)
    (h : bestPair better l = some (i, x)) : l[i]? = some (some x) := by
  induction l generalizing i with
  | nil => simp [bestPair] at h
  | cons v rest ih =>
    cases v with
    | none =>
      rw [bestPair_cons_none] at h
      rcases Option.map_eq_some'.mp h with ⟨⟨j, z⟩, hb, hEq⟩
      obtain ⟨hi, hx⟩ := Prod.mk.injEq .. ▸ hEq
      subst hx
      have := ih j hb
      simp [← hi, this]
    | some x₀ =>
      cases hb : bestPair better rest with
      | none =>
        rw [bestPair_cons_some_none x₀ rest hb] at h
        obtain ⟨hi, hx⟩ := Prod.mk.injEq .. ▸ Option.some.inj h
        simp [← hi, ← hx]
      | some p =>
        rcases p with ⟨j, y⟩
        rw [bestPair_cons_some_some x₀ rest j y hb] at h
        by_cases hby : better y x₀ = true
        · rw [if_pos hby] at h
          obtain ⟨hi, hx⟩ := Prod.mk.injEq .. ▸ Option.some.inj h
          subst hx
          have := ih j hb
          simp [← hi, this]
        · rw [if_neg hby] at h
          obtain ⟨hi, hx⟩ := Prod.mk.injEq .. ▸ Option.some.inj h
          simp [← hi, ← hx]

lemma bestPair_not_better
    (hne : ∀ a b c, better a b = false → better b c = false → better a c = false)
    (hirr : ∀ a, better a a = false)
    (hasym : ∀ a b, better a b = true → better b a = false)
    (l : List (Option ℚ)) (i : Nat) (x : ℚ)
    (h : bestPair better l = some (i, x)) :
    ∀ (j : Nat) (y : ℚ), l[j]? = some (some y) → better y x = false := by
  induction l generalizing i x with
  | nil => simp [bestPair] at h
  | cons v rest ih =>
    intro j y hj
    cases v with
    | none =>
      rw [bestPair_cons_none] at h
      rcases Option.map_eq_some'.mp h with ⟨⟨j', z⟩, hb, hEq⟩
      obtain ⟨_, hx⟩ := Prod.mk.injEq .. ▸ hEq
      subst hx
      cases j with
      | zero => simp at hj
      | succ j =>
        simp only [List.getElem?_cons_succ] at hj
        exact ih j' z hb j y hj
    | some x₀ =>
      cases hb : bestPair better rest with
      | none =>
        rw [bestPair_cons_some_none x₀ rest hb] at h
        obtain ⟨_, hx⟩ := Prod.mk.injEq .. ▸ Option.some.inj h
        subst hx
        cases j with
        | zero =>
          simp only [List.getElem?_cons_zero, Option.some.injEq] at hj
          rw [← hj]
          exact hirr x₀
        | succ j =>
          simp only [List.getElem?_cons_succ] at hj
          exfalso
          have hall := (bestPair_eq_none rest).mp hb
          have hmem : some y ∈ rest := List.getElem?_mem hj
          exact Option.noConfusion (hall _ hmem)
      | some p =>
        rcases p with ⟨j₀, y₀⟩
        rw [bestPair_cons_some_some x₀ rest j₀ y₀ hb] at h
        by_cases hby : better y₀ x₀ = true
        · rw [if_pos hby] at h
          obtain ⟨_, hx⟩ := Prod.mk.injEq .. ▸ Option.some.inj h
          subst hx
          cases j with
          | zero =>
            simp only [List.getElem?_cons_zero, Option.some.injEq] at hj
            rw [← hj]
            exact hasym _ _ hby
          | succ j =>
            simp only [List.getElem?_cons_succ] at hj
            exact ih j₀ y₀ hb j y hj
        · rw [if_neg hby] at h
          obtain ⟨_, hx⟩ := Prod.mk.injEq .. ▸ Option.some.inj h
          subst hx
          have hby' : better y₀ x₀ = false := by simpa using hby
          cases j with
          | zero =>
            simp only [List.getElem?_cons_zero, Option.some.injEq] at hj
            rw [← hj]
            exact hirr x₀
          | succ j =>
            simp only [List.getElem?_cons_succ] at hj
            exact hne y y₀ x₀ (ih j₀ y₀ hb j y hj) hby'

lemma bestPair_first (l : List (Option ℚ)) (i : Nat) (x : ℚ)
    (h : bestPair better l = some (i, x)) :
    ∀ j, j < i → ∀ y, l[j]? = some (some y) → better x y = true := by
  induction l generalizing i with
  | nil => simp [bestPair] at h
  | cons v rest ih =>
    intro j hji y hj
    cases v with
    | none =>
      rw [bestPair_cons_none] at h
      rcases Option.map_eq_some'.mp h with ⟨⟨j', z⟩, hb, hEq⟩
      obtain ⟨hi, hx⟩ := Prod.mk.injEq .. ▸ hEq
      subst hx
      cases j with
      | zero => simp at hj
      | succ j =>
        simp only [List.getElem?_cons_succ] at hj
        exact ih j' hb j (by omega) y hj
    | some x₀ =>
      cases hb : bestPair better rest with
      | none =>
        rw [bestPair_cons_some_none x₀ rest hb] at h
        obtain ⟨hi, _⟩ := Prod.mk.injEq .. ▸ Option.some.inj h
        omega
      | some p =>
        rcases p with ⟨j₀, y₀⟩
        rw [bestPair_cons_some_some x₀ rest j₀ y₀ hb] at h
        by_cases hby : better y₀ x₀ = true
        · rw [if_pos hby] at h
          obtain ⟨hi, hx⟩ := Prod.mk.injEq .. ▸ Option.some.inj h
          subst hx
          cases j with
          | zero =>
            simp only [List.getElem?_cons_zero, Option.some.injEq] at hj
            rw [← hj]
            exact hby
          | succ j =>
            simp only [List.getElem?_cons_succ] at hj
            exact ih j₀ hb j (by omega) y hj
        · rw [if_neg hby] at h
          obtain ⟨hi, _⟩ := Prod.mk.injEq .. ▸ Option.some.inj h
          omega

end BestPairLemmas

/-- The enriched form of tW's January row (also the row duplicated in
`tDup`). -/
def rW1 : Row := ⟨"2024-01", some (2024, 1), some 12, some 10, 14, some 1⟩

/-- The enriched form of tW's February row. -/
def rW2 : Row := ⟨"2024-02", some (2024, 2), some 13, some 11, 20, some 1⟩

example : enrich0003 tW = [rW1, rW2] := by rfl
example : enrich0003 tDup = [rW1, rW1] := by rfl
example : (enrich0003 tFoo).map (fun r => r.bungi) = [none] := by rfl
example : (enrich0003 tNullRev).map (fun r => r.jeunggam) = [0] := by rfl
example : maxMetricText0003 (enrich0003 tAllNullRev) = "-" := by rfl
example : maxIdx0003 (enrich0003 tW) = some 1 := by rfl
example : minIdx0003 (enrich0003 tW) = some 0 := by rfl

/-! ### Claim theorems -/

/-- Claim C1, counterexample to the claim as stated: with a supplied 증감률
that does not parse, a prior-year revenue that parses to 5 ≠ 0, and a
revenue cell that does not parse, the claim demands the output 증감률 be
`(매출액 - 전년동월) / 전년동월 * 100`, which presupposes a parsed revenue
value; the code instead outputs 0 (`fillna(0)` of a NaN formula result). -/
theorem rate_formula_claim_false_on_null_revenue :
    ¬ (∀ (t : RawTable) (rin : RawRow), rin ∈ t.rows →
        t.hasJeunggam = true → toNumeric rin.jeunggam = none →
        ∀ p : ℚ, toNumeric rin.jeonnyeon = some p → p ≠ 0 →
        ∀ out ∈ enrich0003 t,
          ∃ v : ℚ, toNumeric rin.maechul = some v ∧
            out.jeunggam = (v - p) / p * 100) := by
  intro h
  have h1 := h tNullRev ⟨"2024-01", .invalid "abc", .num 5, .empty⟩
      (by simp [tNullRev]) rfl rfl 5 rfl (by norm_num)
  have hrow : (⟨"2024-01", some (2024, 1), none, some 5, 0, some 1⟩ : Row)
      ∈ enrich0003 tNullRev := by
    rw [show enrich0003 tNullRev
        = [⟨"2024-01", some (2024, 1), none, some 5, 0, some 1⟩] from rfl]
    exact List.mem_singleton_self _
  obtain ⟨v, hv, _⟩ := h1 _ hrow
  exact Option.noConfusion hv

/-- Claim C1 (corrected): the output table is a permutation of the per-row
transform of the input, and the derived 증감률 of each transformed row is
the supplied value when it is present and parses; else the formula
`(매출액 - 전년동월) / 전년동월 * 100` when 전년동월 parses to a nonzero
value AND 매출액 parses; and 0 in every remaining case (prior-year zero,
prior-year unparseable, or revenue unparseable). -/
theorem enrich_rate_policy_amended (t : RawTable) :
    (enrich0003 t).Perm
      (t.rows.map (fun r => finishRow rate0003 t.hasJeunggam (toMid r)))
    ∧ ∀ (has : Bool) (r : RawRow),
        (finishRow rate0003 has (toMid r)).jeunggam =
          match (if has then toNumeric r.jeunggam else none) with
          | some v => v
          | none =>
            match toNumeric r.jeonnyeon, toNumeric r.maechul with
            | some p, some rev => if p = 0 then 0 else (rev - p) / p * 100
            | _, _ => 0 := by
  refine ⟨enrich0003_perm t, ?_⟩
  intro has r
  show (rate0003 (toNumeric r.maechul) (toNumeric r.jeonnyeon)
      (if has then toNumeric r.jeunggam else none)).getD 0 = _
  cases h0 : (if has then toNumeric r.jeunggam else none) with
  | some v => simp [rate0003, neZero]
  | none =>
    cases hp : toNumeric r.jeonnyeon with
    | none =>
      cases hrev : toNumeric r.maechul <;>
        simp [rate0003, neZero, yoyFormula, subO, divO, mulO]
    | some p =>
      by_cases hz : p = 0
      · cases hrev : toNumeric r.maechul <;>
          simp [rate0003, neZero, hz]
      · cases hrev : toNumeric r.maechul <;>
          simp [rate0003, neZero, hz, yoyFormula, subO, divO, mulO]

/-- Claim C2, counterexample to the claim as stated: a row whose period
label does not parse gets a null 분기 (NaT has no `dt.quarter`), not a
quarter in 1..4. -/
theorem quarter_claim_false_on_unparseable_label :
    ¬ (∀ (t : RawTable), ∀ r ∈ enrich0003 t,
        ∃ q, r.bungi = some q ∧ 1 ≤ q ∧ q ≤ 4) := by
  intro h
  have hrow : (⟨"foo", none, some 1, some 2, 5, none⟩ : Row)
      ∈ enrich0003 tFoo := by
    rw [show enrich0003 tFoo = [⟨"foo", none, some 1, some 2, 5, none⟩] from rfl]
    exact List.mem_singleton_self _
  obtain ⟨q, hq, _⟩ := h tFoo _ hrow
  exact Option.noConfusion hq

/-- Claim C2 (corrected): for every output row whose period label parses as
a year and month, 분기 is `⌈month / 3⌉ = (month + 2) / 3`, an integer in
1..4; rows whose label does not parse carry a null 분기. -/
theorem quarter_of_parsed_label (t : RawTable) :
    ∀ r ∈ enrich0003 t,
      (∀ y m : Nat, parseYM r.wol = some (y, m) →
        r.bungi = some ((m + 2) / 3) ∧ 1 ≤ (m + 2) / 3 ∧ (m + 2) / 3 ≤ 4)
      ∧ (parseYM r.wol = none → r.bungi = none) := by
  intro r hr
  obtain ⟨hdate, hbungi⟩ := enrich0003_dateCol_eq t r hr
  constructor
  · intro y m hym
    have hb : r.bungi = some ((m - 1) / 3 + 1) := by
      rw [hbungi, hdate, hym]
      rfl
    obtain ⟨hm1, hm12⟩ := parseYM_month_bounds r.wol y m hym
    have heq : (m - 1) / 3 + 1 = (m + 2) / 3 := by omega
    exact ⟨heq ▸ hb, by omega, by omega⟩
  · intro hnone
    rw [hbungi, hdate, hnone]
    rfl

/-- Witness for `quarter_of_parsed_label` at the concrete table `tW`. -/
theorem quarter_of_parsed_label_witness :
    rW1 ∈ enrich0003 tW ∧ parseYM rW1.wol = some (2024, 1) ∧
      rW1.bungi = some ((1 + 2) / 3) ∧ 1 ≤ (1 + 2) / 3 ∧ (1 + 2) / 3 ≤ 4 := by
  have hm : rW1 ∈ enrich0003 tW := by
    rw [show enrich0003 tW = [rW1, rW2] from rfl]
    exact List.mem_cons_self _ _
  have h := (quarter_of_parsed_label tW rW1 hm).1 2024 1 rfl
  exact ⟨hm, rfl, h.1, h.2.1, h.2.2⟩

/-- Claim C3, counterexample to the claim as stated: processing a table
whose every period label is unparseable does NOT signal a data-format
error; `errors="coerce"` turns every date into NaT and `enrich_df` returns
normally, so the `st.error` branch is not taken. -/
theorem error_on_unparseable_claim_false :
    ¬ (∀ t : RawTable, (∀ r ∈ t.rows, parseYM (stripStr r.wol) = none) →
        ∃ e, enrich0003E t = Except.error e) := by
  intro h
  have hprem : ∀ r ∈ tFoo.rows, parseYM (stripStr r.wol) = none := by
    intro r hr
    have : r = ⟨"foo", .num 1, .num 2, .num 5⟩ := by
      simpa [tFoo] using hr
    subst this
    rfl
  obtain ⟨e, he⟩ := h tFoo hprem
  rw [show enrich0003E tFoo = Except.ok (enrich0003 tFoo) from rfl] at he
  exact Except.noConfusion he

/-- Claim C3 (corrected): on a table with the three required columns whose
every period label is unparseable, both versions of `enrich_df` return
normally (no exception, hence no user-visible error and no suppressed
rendering), and every output row carries a null date key and null 분기. -/
theorem unparseable_table_ok_amended (t : RawTable)
    (h1 : t.hasWol = true) (h2 : t.hasMaechul = true)
    (h3 : t.hasJeonnyeon = true)
    (hall : ∀ r ∈ t.rows, parseYM (stripStr r.wol) = none) :
    enrich0003E t = Except.ok (enrich0003 t)
    ∧ enrichKurlyE t = Except.ok (enrichKurly t)
    ∧ ∀ r ∈ enrich0003 t, r.dateCol = none ∧ r.bungi = none := by
  refine ⟨by simp [enrich0003E, h1, h2, h3],
    by simp [enrichKurlyE, h1, h2, h3], ?_⟩
  intro r hr
  rcases enrich0003_row_shape t r hr with ⟨r₀, hr₀, rfl⟩
  have hd : (toMid r₀).dateCol = none := by
    simp [toMid, hall r₀ hr₀]
  refine ⟨?_, ?_⟩
  · rw [finishRow_dateCol]
    exact hd
  · rw [finishRow_bungi, hd]
    rfl

/-- Witness for `unparseable_table_ok_amended` at the concrete table
`tFoo`. -/
theorem unparseable_table_ok_witness :
    (tFoo.hasWol = true ∧ (∀ r ∈ tFoo.rows, parseYM (stripStr r.wol) = none))
    ∧ (enrich0003E tFoo = Except.ok (enrich0003 tFoo)
       ∧ enrichKurlyE tFoo = Except.ok (enrichKurly tFoo)
       ∧ ∀ r ∈ enrich0003 tFoo, r.dateCol = none ∧ r.bungi = none) := by
  refine ⟨⟨rfl, by decide⟩, ?_⟩
  exact unparseable_table_ok_amended tFoo rfl rfl rfl (by decide)

/-- Claim C4: the two scripts' enrichment routines are extensionally equal,
both as total transforms and with their error behaviour included.  The
kurly variant computes its right-hand side over the `missing_mask` rows and
pandas aligns it by index onto the assigned `missing & ne(0)` rows, which
selects exactly the values the 0003 variant computes directly. -/
theorem enrich_equiv_0003_kurly (t : RawTable) :
    enrich0003 t = enrichKurly t ∧ enrich0003E t = enrichKurlyE t := by
  have hfin : finishRow rate0003 t.hasJeunggam
      = finishRow rateKurly t.hasJeunggam := by
    funext m
    simp [finishRow, rate0003_eq_rateKurly]
  have hmain : enrich0003 t = enrichKurly t := by
    unfold enrich0003 enrichKurly
    rw [hfin]
  exact ⟨hmain, by simp [enrich0003E, enrichKurlyE, hmain]⟩

/-- Claim C5: the output rows are sorted by the `sort_values` comparator:
non-decreasing on parsed dates, and every row with an unparseable (null)
date key comes after every row with a parsed one (`na_position="last"`);
nothing is claimed about the relative order of null-key rows. -/
theorem enrich_sorted_by_date (t : RawTable) :
    (enrich0003 t).Pairwise (fun a b => keyLE a.dateCol b.dateCol = true) := by
  unfold enrich0003
  rw [List.pairwise_map]
  have hs : (List.insertionSort dateLEP (t.rows.map toMid)).Pairwise dateLEP :=
    List.sorted_insertionSort dateLEP (t.rows.map toMid)
  refine hs.imp ?_
  intro a b hab
  rw [finishRow_dateCol, finishRow_dateCol]
  exact hab

/-- Claim C6: on an enriched table with at least one non-null revenue, the
reported max-revenue position (guarded in 0003.py, unguarded in
kurly_dash_2.py — both agree here) holds a non-null revenue that is a
maximum of the column, and every strictly earlier row in the sorted order
has a strictly smaller revenue or a null one (ties are broken by first
occurrence); dually for the min-revenue position. -/
theorem metrics_argmax_argmin_correct (t : RawTable)
    (hnn : notnaAny (vals (enrich0003 t)) = true) :
    (∃ i v, maxIdx0003 (enrich0003 t) = some i
      ∧ maxIdxKurly (enrich0003 t) = Except.ok i
      ∧ (vals (enrich0003 t))[i]? = some (some v)
      ∧ (∀ (j : Nat) (w : ℚ),
          (vals (enrich0003 t))[j]? = some (some w) → w ≤ v)
      ∧ (∀ (j : Nat), j < i → ∀ w : ℚ,
          (vals (enrich0003 t))[j]? = some (some w) → w < v))
    ∧ (∃ i v, minIdx0003 (enrich0003 t) = some i
      ∧ minIdxKurly (enrich0003 t) = Except.ok i
      ∧ (vals (enrich0003 t))[i]? = some (some v)
      ∧ (∀ (j : Nat) (w : ℚ),
          (vals (enrich0003 t))[j]? = some (some w) → v ≤ w)
      ∧ (∀ (j : Nat), j < i → ∀ w : ℚ,
          (vals (enrich0003 t))[j]? = some (some w) → v < w)) := by
  have hex : ∃ q, some q ∈ vals (enrich0003 t) := by
    rcases List.any_eq_true.mp hnn with ⟨v, hv, hsome⟩
    cases v with
    | none => simp at hsome
    | some q => exact ⟨q, hv⟩
  constructor
  · have hne : bestPair (fun y x => decide (x < y)) (vals (enrich0003 t))
        ≠ none := by
      intro h0
      rcases hex with ⟨q, hq⟩
      exact Option.noConfusion ((bestPair_eq_none _).mp h0 _ hq)
    obtain ⟨⟨i, x⟩, hbp⟩ := Option.ne_none_iff_exists'.mp hne
    refine ⟨i, x, ?_, ?_, bestPair_get _ i x hbp, ?_, ?_⟩
    · rw [maxIdx0003, if_pos hnn, idxmax, hbp]
      rfl
    · rw [maxIdxKurly, idxmax, hbp]
      rfl
    · intro j w hj
      have := bestPair_not_better
        (by
          intro a b c h1 h2
          simp only [decide_eq_false_iff_not, not_lt] at h1 h2 ⊢
          exact le_trans h1 h2)
        (by intro a; simp)
        (by
          intro a b hab
          simp only [decide_eq_true_eq] at hab
          simp only [decide_eq_false_iff_not, not_lt]
          exact le_of_lt hab)
        (vals (enrich0003 t)) i x hbp j w hj
      simpa [decide_eq_false_iff_not, not_lt] using this
    · intro j hji w hj
      have := bestPair_first (vals (enrich0003 t)) i x hbp j hji w hj
      simpa using this
  · have hne : bestPair (fun y x => decide (y < x)) (vals (enrich0003 t))
        ≠ none := by
      intro h0
      rcases hex with ⟨q, hq⟩
      exact Option.noConfusion ((bestPair_eq_none _).mp h0 _ hq)
    obtain ⟨⟨i, x⟩, hbp⟩ := Option.ne_none_iff_exists'.mp hne
    refine ⟨i, x, ?_, ?_, bestPair_get _ i x hbp, ?_, ?_⟩
    · rw [minIdx0003, if_pos hnn, idxmin, hbp]
      rfl
    · rw [minIdxKurly, idxmin, hbp]
      rfl
    · intro j w hj
      have := bestPair_not_better
        (by
          intro a b c h1 h2
          simp only [decide_eq_false_iff_not, not_lt] at h1 h2 ⊢
          exact le_trans h2 h1)
        (by intro a; simp)
        (by
          intro a b hab
          simp only [decide_eq_true_eq] at hab
          simp only [decide_eq_false_iff_not, not_lt]
          exact le_of_lt hab)
        (vals (enrich0003 t)) i x hbp j w hj
      simpa [decide_eq_false_iff_not, not_lt] using this
    · intro j hji w hj
      have := bestPair_first (vals (enrich0003 t)) i x hbp j hji w hj
      simpa using this

/-- Witness for `metrics_argmax_argmin_correct` at the concrete table
`tW`. -/
theorem metrics_argmax_argmin_witness :
    notnaAny (vals (enrich0003 tW)) = true
    ∧ ((∃ i v, maxIdx0003 (enrich0003 tW) = some i
        ∧ maxIdxKurly (enrich0003 tW) = Except.ok i
        ∧ (vals (enrich0003 tW))[i]? = some (some v)
        ∧ (∀ (j : Nat) (w : ℚ),
            (vals (enrich0003 tW))[j]? = some (some w) → w ≤ v)
        ∧ (∀ (j : Nat), j < i → ∀ w : ℚ,
            (vals (enrich0003 tW))[j]? = some (some w) → w < v))
      ∧ (∃ i v, minIdx0003 (enrich0003 tW) = some i
        ∧ minIdxKurly (enrich0003 tW) = Except.ok i
        ∧ (vals (enrich0003 tW))[i]? = some (some v)
        ∧ (∀ (j : Nat) (w : ℚ),
            (vals (enrich0003 tW))[j]? = some (some w) → v ≤ w)
        ∧ (∀ (j : Nat), j < i → ∀ w : ℚ,
            (vals (enrich0003 tW))[j]? = some (some w) → v < w))) :=
  ⟨rfl, metrics_argmax_argmin_correct tW rfl⟩

/-- Claim C7, counterexample to the claim as stated: `enrich_df` performs
no deduplication, so an input with a repeated period label yields an output
whose 월 values are not pairwise distinct. -/
theorem period_distinct_claim_false_on_duplicate_input :
    ¬ ((enrich0003 tDup).Pairwise (fun a b => a.wol ≠ b.wol)) := by
  intro h
  rw [show enrich0003 tDup = [rW1, rW1] from rfl] at h
  rcases List.pairwise_cons.mp h with ⟨h1, _⟩
  exact h1 rW1 (List.mem_singleton_self rW1) rfl

/-- Claim C7 (corrected): the output 월 column is a permutation of the
trimmed input 월 column, so output labels are pairwise distinct whenever the
trimmed input labels are. -/
theorem period_distinct_amended (t : RawTable)
    (hdist : (t.rows.map (fun r => stripStr r.wol)).Pairwise
      (fun a b => a ≠ b)) :
    ((enrich0003 t).map (fun r => r.wol)).Pairwise (fun a b => a ≠ b) := by
  have hperm : ((enrich0003 t).map (fun r => r.wol)).Perm
      (t.rows.map (fun r => stripStr r.wol)) := by
    have h := (enrich0003_perm t).map (fun r => r.wol)
    simpa [List.map_map, Function.comp, finishRow, toMid] using h
  exact (hperm.pairwise_iff (fun h => Ne.symm h)).mpr hdist

/-- Witness for `period_distinct_amended` at the concrete table `tW`. -/
theorem period_distinct_witness :
    (tW.rows.map (fun r => stripStr r.wol)).Pairwise (fun a b => a ≠ b)
    ∧ ((enrich0003 tW).map (fun r => r.wol)).Pairwise (fun a b => a ≠ b) :=
  ⟨by decide, period_distinct_amended tW (by decide)⟩

/-- Claim C8: on any table that has the three required columns, both
versions of `enrich_df` return normally — unparseable numeric cells and
period labels are coerced to nulls, never raised — and the output has one
row per input row. -/
theorem enrich_total_on_complete_columns (t : RawTable)
    (h1 : t.hasWol = true) (h2 : t.hasMaechul = true)
    (h3 : t.hasJeonnyeon = true) :
    enrich0003E t = Except.ok (enrich0003 t)
    ∧ enrichKurlyE t = Except.ok (enrichKurly t)
    ∧ (enrich0003 t).length = t.rows.length := by
  refine ⟨by simp [enrich0003E, h1, h2, h3],
    by simp [enrichKurlyE, h1, h2, h3], ?_⟩
  have h := (enrich0003_perm t).length_eq
  simpa using h

/-- Witness for `enrich_total_on_complete_columns` at a table with
unparseable cells (`tNullRev`). -/
theorem enrich_total_witness :
    tNullRev.hasWol = true
    ∧ (enrich0003E tNullRev = Except.ok (enrich0003 tNullRev)
       ∧ enrichKurlyE tNullRev = Except.ok (enrichKurly tNullRev)
       ∧ (enrich0003 tNullRev).length = tNullRev.rows.length) :=
  ⟨rfl, enrich_total_on_complete_columns tNullRev rfl rfl rfl⟩

/-- Claim C9: `enrich_df` is a pure transform.  In the heap model of the
call, the caller's object is untouched (the body's first statement rebinds
`df` to a fresh copy and every mutation targets the copy), the returned
table is a function of the argument's value alone, and two calls on equal
inputs return equal outputs. -/
theorem enrich_pure_frame (h₁ h₂ : List RawTable) (r₁ r₂ : Nat)
    (t : RawTable) (hr₁ : h₁[r₁]? = some t) (hr₂ : h₂[r₂]? = some t) :
    (enrichCall h₁ r₁).1[r₁]? = some t
    ∧ (enrichCall h₁ r₁).2 = enrich0003 t
    ∧ (enrichCall h₁ r₁).2 = (enrichCall h₂ r₂).2 := by
  have harg : ∀ (h : List RawTable) (r : Nat), h[r]? = some t →
      h.getD r emptyRawTable = t := by
    intro h r hr
    rw [List.getD_eq_getElem?_getD, hr]
    rfl
  have hres : ∀ (h : List RawTable) (r : Nat), h[r]? = some t →
      (enrichCall h r).2 = enrich0003 t := by
    intro h r hr
    show enrich0003 ((h ++ [h.getD r emptyRawTable]).getD h.length
      emptyRawTable) = enrich0003 t
    rw [harg h r hr, List.getD_eq_getElem?_getD, List.getElem?_concat_length]
    rfl
  have hlt : r₁ < h₁.length := by
    rcases List.getElem?_eq_some.mp hr₁ with ⟨hl, _⟩
    exact hl
  refine ⟨?_, hres h₁ r₁ hr₁, ?_⟩
  · show (h₁ ++ [h₁.getD r₁ emptyRawTable])[r₁]? = some t
    rw [List.getElem?_append_left hlt]
    exact hr₁
  · rw [hres h₁ r₁ hr₁, hres h₂ r₂ hr₂]

/-- Witness for `enrich_pure_frame` on a one-object heap. -/
theorem enrich_pure_frame_witness :
    [tW][0]? = some tW
    ∧ ((enrichCall [tW] 0).1[0]? = some tW
       ∧ (enrichCall [tW] 0).2 = enrich0003 tW
       ∧ (enrichCall [tW] 0).2 = (enrichCall [tW] 0).2) :=
  ⟨rfl, enrich_pure_frame [tW] [tW] 0 0 tW rfl rfl⟩

/-- Claim C10: on an enriched table whose revenue column is entirely null,
0003.py's guarded stage computes no max or min index and both metric texts
are the dash, without raising, while kurly_dash_2.py's unguarded
`idxmax` / `idxmin` calls raise the pandas all-NaN ValueError instead of
rendering the metrics. -/
theorem allnull_metrics_divergence (df : List Row)
    (hall : ∀ r ∈ df, r.maechul = none) :
    maxIdx0003 df = none ∧ minIdx0003 df = none
    ∧ maxMetricText0003 df = "-" ∧ minMetricText0003 df = "-"
    ∧ maxIdxKurly df
        = Except.error "attempt to get argmax of an empty sequence"
    ∧ minIdxKurly df
        = Except.error "attempt to get argmin of an empty sequence" := by
  have hvals : ∀ v ∈ vals df, v = none := by
    intro v hv
    rcases List.mem_map.mp hv with ⟨r, hr, rfl⟩
    exact hall r hr
  have hna : notnaAny (vals df) = false := by
    rw [notnaAny, List.any_eq_false]
    intro v hv
    rw [hvals v hv]
    simp
  have hmaxb : bestPair (fun y x => decide (x < y)) (vals df) = none :=
    (bestPair_eq_none _).mpr hvals
  have hminb : bestPair (fun y x => decide (y < x)) (vals df) = none :=
    (bestPair_eq_none _).mpr hvals
  have hmax : maxIdx0003 df = none := by rw [maxIdx0003, if_neg (by simp [hna])]
  have hmin : minIdx0003 df = none := by rw [minIdx0003, if_neg (by simp [hna])]
  refine ⟨hmax, hmin, ?_, ?_, ?_, ?_⟩
  · rw [maxMetricText0003, hmax]
  · rw [minMetricText0003, hmin]
  · rw [maxIdxKurly, idxmax, hmaxb]
    rfl
  · rw [minIdxKurly, idxmin, hminb]
    rfl

/-- Witness for `allnull_metrics_divergence` on the enrichment of a table
whose single revenue cell is unparseable. -/
theorem allnull_metrics_witness :
    (∀ r ∈ enrich0003 tAllNullRev, r.maechul = none)
    ∧ (maxIdx0003 (enrich0003 tAllNullRev) = none
       ∧ minIdx0003 (enrich0003 tAllNullRev) = none
       ∧ maxMetricText0003 (enrich0003 tAllNullRev) = "-"
       ∧ minMetricText0003 (enrich0003 tAllNullRev) = "-"
       ∧ maxIdxKurly (enrich0003 tAllNullRev)
           = Except.error "attempt to get argmax of an empty sequence"
       ∧ minIdxKurly (enrich0003 tAllNullRev)
           = Except.error "attempt to get argmin of an empty sequence") :=
  ⟨by decide, allnull_metrics_divergence (enrich0003 tAllNullRev) (by decide)⟩
